import Mathlib

/-!
Verification development for the keyboard-testkit event pipeline.

Shallow embedding conventions:
* `u16`/`u64` scancodes and counters are `Nat`; the kernel record `value`
  field (`i32`) is `Int`.  No arithmetic in the embedded code can overflow
  the machine widths on the inputs the program handles, so widths are not
  tracked explicitly.
* `f64` quantities (millisecond intervals, means, variances, ratios) are
  modelled by `Frac`, an executable exact-fraction type.  All `f64` values
  the program computes on exact-millisecond inputs are exact, so the model
  agrees with the floating-point code on the scenarios below.
* `Instant` timestamps are `Frac` milliseconds; `Instant::duration_since`
  saturates at zero, modelled by `Frac.durationSince`.
* `HashMap` is an association list with first-match lookup; `HashSet` is a
  `List Nat` with insert/remove returning whether the set changed, exactly
  as the Rust call sites test; `VecDeque` is a `List` with `push_back` as
  append and `pop_front` as `tail`.
* Calls to `Instant::now()` inside a function become an explicit `now`
  argument.
-/

/-- Exact fraction `num / (den + 1)`: an executable model of the `f64`
values of the source.  Storing the denominator minus one makes every value
of the type well formed, so no positivity invariant is carried around. -/
structure Frac where
  num : Int
  den : Nat
deriving DecidableEq

namespace Frac

/-- The (positive) denominator as an integer. -/
def denom (x : Frac) : Int := (x.den : Int) + 1

def ofNat (n : Nat) : Frac := ⟨(n : Int), 0⟩

def ofInt (n : Int) : Frac := ⟨n, 0⟩

instance (n : Nat) : OfNat Frac n := ⟨Frac.ofNat n⟩

/-- `x < y` on fractions, by cross multiplication with positive denominators. -/
def lt (x y : Frac) : Prop := x.num * y.denom < y.num * x.denom

/-- `x ≤ y` on fractions, by cross multiplication with positive denominators. -/
def le (x y : Frac) : Prop := x.num * y.denom ≤ y.num * x.denom

instance (x y : Frac) : Decidable (Frac.lt x y) := by
  unfold Frac.lt; exact inferInstance

instance (x y : Frac) : Decidable (Frac.le x y) := by
  unfold Frac.le; exact inferInstance

def add (x y : Frac) : Frac :=
  ⟨x.num * y.denom + y.num * x.denom, x.den * y.den + x.den + y.den⟩

def sub (x y : Frac) : Frac :=
  ⟨x.num * y.denom - y.num * x.denom, x.den * y.den + x.den + y.den⟩

def mul (x y : Frac) : Frac :=
  ⟨x.num * y.num, x.den * y.den + x.den + y.den⟩

/-- Division by a natural number (the only division the pipeline performs is
by a list length that is positive at every call site). -/
def divNat (x : Frac) (n : Nat) : Frac := ⟨x.num, x.den * n + (n - 1)⟩

def max (x y : Frac) : Frac := if Frac.lt x y then y else x

/-- `Instant::duration_since` in milliseconds: saturates at zero when the
other instant is later. -/
def durationSince (a b : Frac) : Frac := Frac.max (Frac.sub a b) 0

def sumF (l : List Frac) : Frac := l.foldl Frac.add 0

theorem le_refl (x : Frac) : x.le x := by
  unfold le; exact Int.le_refl _

theorem le_of_lt {x y : Frac} (h : x.lt y) : x.le y := by
  unfold lt at h; unfold le; exact Int.le_of_lt h

theorem le_of_not_lt {x y : Frac} (h : ¬ x.lt y) : y.le x := by
  unfold lt at h; unfold le; exact Int.not_lt.mp h

theorem denom_pos (x : Frac) : 0 < x.denom := by
  unfold denom; positivity

theorem le_trans' {x y z : Frac} (h1 : x.le y) (h2 : y.le z) : x.le z := by
  unfold le at *
  have hx := denom_pos x
  have hy := denom_pos y
  have hz := denom_pos z
  nlinarith [mul_le_mul_of_nonneg_right h1 (Int.le_of_lt hz),
    mul_le_mul_of_nonneg_right h2 (Int.le_of_lt hx)]

theorem denom_sub (x y : Frac) : (x.sub y).denom = x.denom * y.denom := by
  unfold sub denom
  push_cast
  ring

theorem sub_le_sub_left {b c : Frac} (a : Frac) (h : b.le c) :
    (a.sub c).le (a.sub b) := by
  unfold le at *
  rw [denom_sub, denom_sub]
  unfold sub
  dsimp only
  have ha := denom_pos a
  have hb := denom_pos b
  have hc := denom_pos c
  nlinarith [mul_le_mul_of_nonneg_left h (mul_nonneg (Int.le_of_lt ha) (Int.le_of_lt ha))]

theorem max_zero_mono {x y : Frac} (h : x.le y) : (Frac.max x 0).le (Frac.max y 0) := by
  unfold Frac.max
  split_ifs with h1 h2 h2
  · exact le_refl 0
  · exact le_of_not_lt h2
  · exact le_trans' h (le_of_lt h2)
  · exact h

theorem durationSince_anti {b c : Frac} (a : Frac) (h : b.le c) :
    (a.durationSince c).le (a.durationSince b) := by
  unfold durationSince
  exact max_zero_mono (sub_le_sub_left a h)

end Frac

/-! ## Key remapping engine (src/keyboard/remap.rs) -/

/-- `FnKeyMode` from `remap.rs`. -/
inductive FnKeyMode
  | Disabled
  | CaptureOnly
  | RestoreWithModifier
  | MapToFKeys
  | MapToMedia
deriving DecidableEq

/-- `UnknownKeyBehavior` from `remap.rs`. -/
inductive UnknownKeyBehavior
  | PassThrough
  | CaptureAndPassThrough
  | Block
deriving DecidableEq

/-- `CapturedKey` from `remap.rs`. -/
structure CapturedKey where
  scancode : Nat
  timestamp : Frac
  pressed : Bool
  press_count : Nat
  label : Option String
deriving DecidableEq

/-- `CapturedKey::new` (the `now` argument stands for `Instant::now()`). -/
def CapturedKey.make (now : Frac) (scancode : Nat) (pressed : Bool)
    (label : Option String) : CapturedKey :=
  ⟨scancode, now, pressed, if pressed then 1 else 0, label⟩

/-- `RemapResult` from `remap.rs`.  The Rust field names `from`/`to` are
Lean keywords, rendered here as `fromCode`/`toCode`. -/
inductive RemapResult
  | Unchanged (code : Nat)
  | Remapped (fromCode toCode : Nat)
  | Blocked (code : Nat)
  | FnModifier (pressed : Bool)
  | FnCombo (original result : Nat)
deriving DecidableEq

/-- `KeyRemapper` from `remap.rs`.  The two `HashMap`s and the captured-key
table are association lists with first-match lookup. -/
structure KeyRemapper where
  mappings : List (Nat × Nat)
  fn_mode : FnKeyMode
  fn_held : Bool
  fn_scancodes : List Nat
  unknown_behavior : UnknownKeyBehavior
  captured_keys : List (Nat × CapturedKey)
  fn_combos : List (Nat × Nat)
  enabled : Bool
deriving DecidableEq

/-- `HashMap::insert`: replace the binding for `k` (association-list form:
prepend and drop stale bindings of the same key). -/
def insertA {α : Type} (m : List (Nat × α)) (k : Nat) (v : α) : List (Nat × α) :=
  (k, v) :: m.filter (fun p => p.1 != k)

/-- The key set of the static `KEYMAP` table of `keymap.rs` (the scancodes
with registered key metadata). -/
def KEYMAP_codes : List Nat :=
  [1, 59, 60, 61, 62, 63, 64, 65, 66, 67, 68, 87, 88,
   41, 2, 3, 4, 5, 6, 7, 8, 9, 10, 11, 12, 13, 14,
   15, 16, 17, 18, 19, 20, 21, 22, 23, 24, 25, 26, 27, 43,
   58, 30, 31, 32, 33, 34, 35, 36, 37, 38, 39, 40, 28,
   42, 44, 45, 46, 47, 48, 49, 50, 51, 52, 53, 54,
   29, 125, 56, 57, 100, 126, 127, 97,
   103, 105, 108, 106,
   110, 102, 104, 111, 107, 109]

/-- `KeyRemapper::setup_default_fn_combos`: the default combo table. -/
def default_fn_combos : List (Nat × Nat) :=
  [(2, 59), (3, 60), (4, 61), (5, 62), (6, 63), (7, 64), (8, 65), (9, 66),
   (10, 67), (11, 68), (12, 87), (13, 88),
   (105, 165), (106, 163), (103, 115), (108, 114),
   (57, 164), (14, 111), (1, 142)]

/-- `KeyRemapper::new`. -/
def KeyRemapper.new : KeyRemapper :=
  { mappings := []
    fn_mode := FnKeyMode.CaptureOnly
    fn_held := false
    fn_scancodes := [464, 480]
    unknown_behavior := UnknownKeyBehavior.CaptureAndPassThrough
    captured_keys := []
    fn_combos := default_fn_combos
    enabled := true }

/-- `KeyRemapper::is_fn_key`: `self.fn_scancodes.contains(&scancode)`. -/
abbrev KeyRemapper.is_fn_key (r : KeyRemapper) (scancode : Nat) : Prop :=
  scancode ∈ r.fn_scancodes

/-- `KeyRemapper::capture_key` (the `now` argument stands for the
`Instant::now()` calls inside). -/
def KeyRemapper.capture_key (r : KeyRemapper) (now : Frac) (scancode : Nat)
    (pressed : Bool) (label : Option String) : KeyRemapper :=
  match List.lookup scancode r.captured_keys with
  | some existing =>
      let updated : CapturedKey :=
        { existing with
            press_count := if pressed then existing.press_count + 1 else existing.press_count
            timestamp := now
            pressed := pressed
            label := if label.isSome then label else existing.label }
      { r with captured_keys := insertA r.captured_keys scancode updated }
  | none =>
      { r with captured_keys :=
          insertA r.captured_keys scancode (CapturedKey.make now scancode pressed label) }

/-- The tail of `KeyRemapper::process_key` after the FN-key and FN-combo
rules have fallen through: direct mappings, unknown-key capture, default.
(The Rust original expresses this fall-through with early returns.) -/
def KeyRemapper.process_key_tail (r : KeyRemapper) (now : Frac) (key : Nat)
    (pressed : Bool) : KeyRemapper × RemapResult :=
  match (if r.enabled then List.lookup key r.mappings else none) with
  | some target => (r, RemapResult.Remapped key target)
  | none =>
      if key ∈ KEYMAP_codes then (r, RemapResult.Unchanged key)
      else
        let r1 := r.capture_key now key pressed none
        if r1.unknown_behavior = UnknownKeyBehavior.Block then
          (r1, RemapResult.Blocked key)
        else (r1, RemapResult.Unchanged key)

/-- `KeyRemapper::process_key`. -/
def KeyRemapper.process_key (r : KeyRemapper) (now : Frac) (key : Nat)
    (pressed : Bool) : KeyRemapper × RemapResult :=
  if r.is_fn_key key then
    let r1 := { r with fn_held := pressed }
    (r1.capture_key now key pressed (some "Fn"), RemapResult.FnModifier pressed)
  else if r.fn_held = true ∧ pressed = true ∧ r.fn_mode ≠ FnKeyMode.Disabled then
    match List.lookup key r.fn_combos with
    | some result => (r.capture_key now key pressed none, RemapResult.FnCombo key result)
    | none => r.process_key_tail now key pressed
  else r.process_key_tail now key pressed

/-- `KeyRemapper::reset_state`. -/
def KeyRemapper.reset_state (r : KeyRemapper) : KeyRemapper :=
  { r with fn_held := false, captured_keys := [] }

theorem lookup_insertA_self {α : Type} (m : List (Nat × α)) (k : Nat) (v : α) :
    List.lookup k (insertA m k v) = some v := by
  simp [insertA, List.lookup]

theorem capture_key_fn_held (r : KeyRemapper) (now : Frac) (sc : Nat)
    (pressed : Bool) (label : Option String) :
    (r.capture_key now sc pressed label).fn_held = r.fn_held := by
  unfold KeyRemapper.capture_key
  cases List.lookup sc r.captured_keys <;> rfl

theorem capture_key_lookup (r : KeyRemapper) (now : Frac) (sc : Nat)
    (pressed : Bool) (label : Option String) (hl : label.isSome) :
    ∃ ck, List.lookup sc (r.capture_key now sc pressed label).captured_keys = some ck ∧
      ck.label = label ∧ ck.pressed = pressed ∧ ck.timestamp = now := by
  unfold KeyRemapper.capture_key
  cases h : List.lookup sc r.captured_keys with
  | none =>
      exact ⟨_, lookup_insertA_self .., rfl, rfl, rfl⟩
  | some existing =>
      refine ⟨_, lookup_insertA_self .., ?_, rfl, rfl⟩
      simp [hl]

/-- C1: for every remapper state and every scancode in the FN-scancode set,
`process_key` sets the FN-held boolean to `pressed`, records the transition
into the capture table labeled "Fn", and returns `FnModifier pressed`; in
particular `Remapped` is never returned for such a code, even when a direct
mapping is also registered for it. -/
theorem fn_rule_wins (r : KeyRemapper) (now : Frac) (code : Nat) (pressed : Bool)
    (h : code ∈ r.fn_scancodes) :
    (r.process_key now code pressed).2 = RemapResult.FnModifier pressed ∧
    (r.process_key now code pressed).1.fn_held = pressed ∧
    ∃ ck, List.lookup code (r.process_key now code pressed).1.captured_keys = some ck ∧
      ck.label = some "Fn" ∧ ck.pressed = pressed ∧ ck.timestamp = now := by
  have hfn : r.is_fn_key code := h
  unfold KeyRemapper.process_key
  rw [if_pos hfn]
  refine ⟨rfl, ?_, ?_⟩
  · rw [capture_key_fn_held]
  · exact capture_key_lookup { r with fn_held := pressed } now code pressed (some "Fn") rfl

theorem fn_rule_wins_witness :
    (464 ∈ KeyRemapper.new.fn_scancodes) ∧
    (KeyRemapper.new.process_key 0 464 true).2 = RemapResult.FnModifier true :=
  ⟨by decide, (fn_rule_wins KeyRemapper.new 0 464 true (by decide)).1⟩

theorem tail_no_combo (r : KeyRemapper) (now : Frac) (key : Nat) (pressed : Bool)
    (a b : Nat) : (r.process_key_tail now key pressed).2 ≠ RemapResult.FnCombo a b := by
  unfold KeyRemapper.process_key_tail
  cases h : (if r.enabled then List.lookup key r.mappings else none) with
  | some t => simp
  | none => dsimp only; split_ifs <;> simp

/-- C3: for a non-FN scancode, `process_key` returns `FnCombo code t` exactly
when FN is held, the event is a press, the FN mode is not `Disabled`, and the
combo table maps `code` to `t`; releasing a combo key while FN is held
therefore never fires a combo. -/
theorem fn_combo_gating (r : KeyRemapper) (now : Frac) (code : Nat) (pressed : Bool)
    (t : Nat) (h : code ∉ r.fn_scancodes) :
    (r.process_key now code pressed).2 = RemapResult.FnCombo code t ↔
      (r.fn_held = true ∧ pressed = true ∧ r.fn_mode ≠ FnKeyMode.Disabled ∧
        List.lookup code r.fn_combos = some t) := by
  have hfn : ¬ r.is_fn_key code := h
  unfold KeyRemapper.process_key
  rw [if_neg hfn]
  by_cases hc : r.fn_held = true ∧ pressed = true ∧ r.fn_mode ≠ FnKeyMode.Disabled
  · rw [if_pos hc]
    cases hl : List.lookup code r.fn_combos with
    | some res => simp [hc.1, hc.2.1, hc.2.2]
    | none =>
        constructor
        · intro he
          exact absurd he (tail_no_combo r now code pressed code t)
        · rintro ⟨-, -, -, hsome⟩
          exact Option.noConfusion hsome
  · rw [if_neg hc]
    constructor
    · intro he
      exact absurd he (tail_no_combo r now code pressed code t)
    · rintro ⟨h1, h2, h3, -⟩
      exact absurd ⟨h1, h2, h3⟩ hc

theorem fn_combo_gating_witness :
    (2 ∉ KeyRemapper.new.fn_scancodes) ∧
    (({ KeyRemapper.new with fn_held := true } : KeyRemapper).process_key 0 2 true).2 =
      RemapResult.FnCombo 2 59 :=
  ⟨by decide,
    (fn_combo_gating { KeyRemapper.new with fn_held := true } 0 2 true 59 (by decide)).mpr
      ⟨rfl, rfl, by decide, by decide⟩⟩

/-- C10: `reset_state` clears the FN-held boolean and the captured-key table
and changes nothing else: the direct-mapping table, the combo table, the
FN-scancode set, the FN mode, the unknown-key behavior, and the enabled flag
are all preserved. -/
theorem reset_state_frame (r : KeyRemapper) :
    r.reset_state.fn_held = false ∧
    r.reset_state.captured_keys = [] ∧
    r.reset_state.mappings = r.mappings ∧
    r.reset_state.fn_combos = r.fn_combos ∧
    r.reset_state.fn_scancodes = r.fn_scancodes ∧
    r.reset_state.fn_mode = r.fn_mode ∧
    r.reset_state.unknown_behavior = r.unknown_behavior ∧
    r.reset_state.enabled = r.enabled :=
  ⟨rfl, rfl, rfl, rfl, rfl, rfl, rfl, rfl⟩

/-! ## Device acquisitor (src/keyboard/evdev_listener.rs) -/

/-- `KeyEventType` from `event.rs`. -/
inductive KeyEventType
  | Press
  | Release
deriving DecidableEq

/-- `KeyEvent` from `event.rs` (the `KeyCode` is its raw `u16` value). -/
structure KeyEvent where
  key : Nat
  event_type : KeyEventType
  timestamp : Frac
  delta_us : Nat
deriving DecidableEq

/-- The raw kernel `input_event` record decoded by the listener. -/
structure InputRecord where
  tv_sec : Int
  tv_usec : Int
  event_type : Nat
  code : Nat
  value : Int
deriving DecidableEq

def EV_KEY : Nat := 1

/-- One iteration of the per-record body of `EvdevListener::poll`: given the
pressed-key set, produce the updated set and the emitted event, if any.
`now` and `delta_us` are the per-tick values computed at the top of `poll`. -/
def processRecord (pressed : List Nat) (now : Frac) (delta_us : Nat)
    (ev : InputRecord) : List Nat × Option KeyEvent :=
  if ev.event_type = EV_KEY then
    -- pressed flag: `value != 0` (1 = press, 2 = repeat, 0 = release)
    -- key repeats (value == 2) are skipped before any state tracking
    if ev.value = 2 then (pressed, none)
    else if ev.value ≠ 0 then
      if ev.code ∈ pressed then (pressed, none)
      else (ev.code :: pressed,
        some ⟨ev.code, KeyEventType.Press, now, delta_us⟩)
    else
      if ev.code ∈ pressed then (pressed.erase ev.code,
        some ⟨ev.code, KeyEventType.Release, now, delta_us⟩)
      else (pressed, none)
  else (pressed, none)

/-- Folding `processRecord` over the records decoded from one read. -/
def processRecords (pressed : List Nat) (now : Frac) (delta_us : Nat) :
    List InputRecord → List Nat × List KeyEvent
  | [] => (pressed, [])
  | ev :: rest =>
      let step := processRecord pressed now delta_us ev
      let next := processRecords step.1 now delta_us rest
      (next.1, step.2.toList ++ next.2)

/-- C2: the poll loop discards a press for an already-pressed code and a
release for a code not marked pressed; an accepted transition updates the
pressed set and emits exactly one event; hence two consecutive presses of a
not-pressed code emit exactly one `Press`, and press, press, release emit
`Press` then `Release`. -/
theorem poll_dedup (pressed : List Nat) (code : Nat) (s u : Int) (now : Frac)
    (delta_us : Nat) (hnp : code ∉ pressed) :
    (processRecord (code :: pressed) now delta_us ⟨s, u, EV_KEY, code, 1⟩ =
      (code :: pressed, none)) ∧
    (processRecord pressed now delta_us ⟨s, u, EV_KEY, code, 0⟩ =
      (pressed, none)) ∧
    (processRecord pressed now delta_us ⟨s, u, EV_KEY, code, 1⟩ =
      (code :: pressed, some ⟨code, KeyEventType.Press, now, delta_us⟩)) ∧
    (processRecord (code :: pressed) now delta_us ⟨s, u, EV_KEY, code, 0⟩ =
      (pressed, some ⟨code, KeyEventType.Release, now, delta_us⟩)) ∧
    ((processRecords pressed now delta_us
        [⟨s, u, EV_KEY, code, 1⟩, ⟨s, u, EV_KEY, code, 1⟩]).2 =
      [⟨code, KeyEventType.Press, now, delta_us⟩]) ∧
    ((processRecords pressed now delta_us
        [⟨s, u, EV_KEY, code, 1⟩, ⟨s, u, EV_KEY, code, 1⟩, ⟨s, u, EV_KEY, code, 0⟩]).2 =
      [⟨code, KeyEventType.Press, now, delta_us⟩,
       ⟨code, KeyEventType.Release, now, delta_us⟩]) := by
  refine ⟨?_, ?_, ?_, ?_, ?_, ?_⟩ <;>
    simp [processRecords, processRecord, EV_KEY, hnp, List.erase_cons_head]

theorem poll_dedup_witness :
    ((30 : Nat) ∉ ([] : List Nat)) ∧
    (processRecords [] 0 0
        [⟨0, 0, EV_KEY, 30, 1⟩, ⟨0, 0, EV_KEY, 30, 1⟩, ⟨0, 0, EV_KEY, 30, 0⟩]).2 =
      [⟨30, KeyEventType.Press, 0, 0⟩, ⟨30, KeyEventType.Release, 0, 0⟩] :=
  ⟨by decide, (poll_dedup [] 30 0 0 0 0 (by decide)).2.2.2.2.2⟩

/-- C5: an autorepeat record (`value == 2`) never produces a `KeyEvent` and
never changes the pressed set, whatever the prior state. -/
theorem autorepeat_discarded (pressed : List Nat) (now : Frac) (delta_us : Nat)
    (ev : InputRecord) (h : ev.value = 2) :
    processRecord pressed now delta_us ev = (pressed, none) := by
  unfold processRecord
  split_ifs <;> simp_all

theorem autorepeat_discarded_witness :
    ((⟨0, 0, EV_KEY, 30, 2⟩ : InputRecord).value = 2) ∧
    processRecord [30] 0 0 ⟨0, 0, EV_KEY, 30, 2⟩ = ([30], none) :=
  ⟨rfl, autorepeat_discarded [30] 0 0 ⟨0, 0, EV_KEY, 30, 2⟩ rfl⟩

/-! ## Input authenticity classifier (src/tests/virtual_detect.rs)

The virtual-send diagnostic block of `process_event` (guarded by
`test_mode_active`, wired to `execute_virtual_send`) mutates only the
diagnostic-test fields (`physical_keys_received`, `test_results`,
`diagnostic`), none of which feed the anomaly or classification pipeline;
the embedding models the detection pipeline fields. -/

/-- `InputClassification` from `virtual_detect.rs`. -/
inductive InputClassification
  | Physical
  | LikelyPhysical
  | Uncertain
  | LikelyVirtual
  | Virtual
deriving DecidableEq

inductive AnomalySeverity
  | Low
  | Medium
  | High
deriving DecidableEq

/-- The payload of an anomaly description.  The Rust code renders these as
formatted strings; the embedding keeps the formatted data structured. -/
inductive AnomalyDescr
  | inhumanSpeed (intervalMs : Frac)
  | perfectTiming (varianceMs2 : Frac)
  | burst (count : Nat) (windowMs : Nat)
deriving DecidableEq

def AnomalyDescr.isPerfectTiming : AnomalyDescr → Bool
  | AnomalyDescr.perfectTiming _ => true
  | _ => false

/-- `AnomalyEvent` from `virtual_detect.rs`. -/
structure AnomalyEvent where
  descr : AnomalyDescr
  timestamp : Frac
  severity : AnomalySeverity
deriving DecidableEq

/-- `KeystrokeRecord` from `virtual_detect.rs`. -/
structure KeystrokeRecord where
  key : Nat
  timestamp : Frac
  interval_ms : Option Frac
  is_virtual : Bool
deriving DecidableEq

/-- Detection thresholds from `virtual_detect.rs`. -/
def MIN_HUMAN_INTERVAL_MS : Frac := 15

/-- `0.5` ms² as an exact fraction. -/
def PERFECT_TIMING_THRESHOLD : Frac := ⟨1, 1⟩

def BURST_WINDOW_MS : Frac := 50

def BURST_COUNT_THRESHOLD : Nat := 5

def ANALYSIS_WINDOW : Nat := 20

/-- The detection-pipeline state of `VirtualKeyboardTest`. -/
structure VirtualKeyboardTest where
  recent_keystrokes : List KeystrokeRecord
  last_keystroke : Option Frac
  total_keystrokes : Nat
  virtual_count : Nat
  anomalies : List AnomalyEvent
  session_classification : InputClassification
  intervals : List Frac
  burst_window : List Frac
  start_time : Option Frac
  last_interval_ms : Option Frac
  interval_variance : Frac
  interval_mean : Frac
deriving DecidableEq

/-- `VirtualKeyboardTest::new` (detection-pipeline fields). -/
def VirtualKeyboardTest.new : VirtualKeyboardTest :=
  { recent_keystrokes := []
    last_keystroke := none
    total_keystrokes := 0
    virtual_count := 0
    anomalies := []
    session_classification := InputClassification.Uncertain
    intervals := []
    burst_window := []
    start_time := none
    last_interval_ms := none
    interval_variance := 0
    interval_mean := 0 }

/-- `VecDeque` push_back followed by the `len() > cap` pop_front used for
the interval window, the anomaly history, and the keystroke log. -/
def pushCapped {α : Type} (l : List α) (x : α) (cap : Nat) : List α :=
  let l0 := l ++ [x]
  if cap < l0.length then l0.tail else l0

/-- `VirtualKeyboardTest::record_anomaly`, at the level of the anomaly
list: suppress if the most recent recorded anomaly is less than 100 ms old,
otherwise append and cap the history at 50 entries. -/
def record_anomaly_list (anoms : List AnomalyEvent) (d : AnomalyDescr)
    (timestamp : Frac) (severity : AnomalySeverity) : List AnomalyEvent :=
  match anoms.getLast? with
  | some last =>
      if Frac.lt (Frac.durationSince timestamp last.timestamp) 100 then anoms
      else pushCapped anoms ⟨d, timestamp, severity⟩ 50
  | none => pushCapped anoms ⟨d, timestamp, severity⟩ 50

def VirtualKeyboardTest.record_anomaly (s : VirtualKeyboardTest) (d : AnomalyDescr)
    (timestamp : Frac) (severity : AnomalySeverity) : VirtualKeyboardTest :=
  { s with anomalies := record_anomaly_list s.anomalies d timestamp severity }

/-- Rolling mean of the interval window (`sum / len`). -/
def meanOf (l : List Frac) : Frac := (Frac.sumF l).divNat l.length

/-- Population variance of the interval window (`Σ (x - mean)² / len`). -/
def varianceOf (l : List Frac) : Frac :=
  (Frac.sumF (l.map (fun x =>
    Frac.mul (Frac.sub x (meanOf l)) (Frac.sub x (meanOf l))))).divNat l.length

/-- `VirtualKeyboardTest::analyze_timing`. -/
def VirtualKeyboardTest.analyze_timing (s : VirtualKeyboardTest)
    (interval_ms timestamp : Frac) : VirtualKeyboardTest × Bool :=
  let step1 :=
    if Frac.lt interval_ms MIN_HUMAN_INTERVAL_MS then
      (s.record_anomaly (AnomalyDescr.inhumanSpeed interval_ms) timestamp
        AnomalySeverity.High, true)
    else (s, false)
  let s1 := step1.1
  let ints := pushCapped s1.intervals interval_ms ANALYSIS_WINDOW
  let s2 := { s1 with intervals := ints }
  if 5 ≤ ints.length then
    let mean := meanOf ints
    let variance := varianceOf ints
    let s3 := { s2 with interval_mean := mean, interval_variance := variance }
    if Frac.lt variance PERFECT_TIMING_THRESHOLD ∧ 10 ≤ ints.length then
      (s3.record_anomaly (AnomalyDescr.perfectTiming variance) timestamp
        AnomalySeverity.Medium, true)
    else (s3, step1.2)
  else (s2, step1.2)

/-- The front-eviction loop of `detect_burst`: pop while the front is older
than the burst window, stop at the first front inside it. -/
def evictBurst (timestamp : Frac) : List Frac → List Frac
  | [] => []
  | t :: rest =>
      if Frac.lt BURST_WINDOW_MS (Frac.durationSince timestamp t) then
        evictBurst timestamp rest
      else t :: rest

/-- `VirtualKeyboardTest::detect_burst`. -/
def VirtualKeyboardTest.detect_burst (s : VirtualKeyboardTest)
    (timestamp : Frac) : VirtualKeyboardTest × Bool :=
  let w := evictBurst timestamp (s.burst_window ++ [timestamp])
  let s1 := { s with burst_window := w }
  if BURST_COUNT_THRESHOLD ≤ w.length then
    (s1.record_anomaly (AnomalyDescr.burst w.length 50) timestamp
      AnomalySeverity.High, true)
  else (s1, false)

/-- Count of anomalies whose timestamp is within the last 5 seconds of
`now` (`a.timestamp.elapsed() < Duration::from_secs(5)`). -/
def recentAnomalyCount (anoms : List AnomalyEvent) (now : Frac) : Nat :=
  (anoms.filter (fun a =>
    decide (Frac.lt (Frac.durationSince now a.timestamp) 5000))).length

/-- The classification computed by `update_classification`.  `⟨1, 1⟩`,
`⟨1, 4⟩` and `⟨1, 19⟩` are the exact fractions 0.5, 0.2 and 0.05. -/
def VirtualKeyboardTest.classifyOf (s : VirtualKeyboardTest) (now : Frac) :
    InputClassification :=
  if s.total_keystrokes < 10 then InputClassification.Uncertain
  else
    let vshare := (Frac.ofNat s.virtual_count).divNat s.total_keystrokes
    let recent := recentAnomalyCount s.anomalies now
    if Frac.lt ⟨1, 1⟩ vshare ∨ 3 ≤ recent then InputClassification.Virtual
    else if Frac.lt ⟨1, 4⟩ vshare ∨ 1 ≤ recent then InputClassification.LikelyVirtual
    else if Frac.lt ⟨1, 19⟩ vshare then InputClassification.Uncertain
    else if 50 < s.total_keystrokes then InputClassification.Physical
    else InputClassification.LikelyPhysical

/-- `VirtualKeyboardTest::update_classification`. -/
def VirtualKeyboardTest.update_classification (s : VirtualKeyboardTest)
    (now : Frac) : VirtualKeyboardTest :=
  { s with session_classification := s.classifyOf now }

/-- The body of `VirtualKeyboardTest::process_event` for a press event, up
to (but not including) the final `update_classification` call. -/
def VirtualKeyboardTest.process_event_core (s : VirtualKeyboardTest)
    (e : KeyEvent) (now : Frac) : VirtualKeyboardTest :=
  let s := { s with
    start_time := some (s.start_time.getD now)
    total_keystrokes := s.total_keystrokes + 1 }
  let interval := s.last_keystroke.map (fun last => Frac.durationSince e.timestamp last)
  let s := { s with last_interval_ms := interval }
  let step1 :=
    match interval with
    | some i => s.analyze_timing i e.timestamp
    | none => (s, false)
  let step2 := step1.1.detect_burst e.timestamp
  let is_virtual := step1.2 || step2.2
  let s := step2.1
  let s := if is_virtual then { s with virtual_count := s.virtual_count + 1 } else s
  { s with
    recent_keystrokes :=
      pushCapped s.recent_keystrokes ⟨e.key, e.timestamp, interval, is_virtual⟩
        ANALYSIS_WINDOW
    last_keystroke := some e.timestamp }

/-- `VirtualKeyboardTest::process_event`: ignore non-press events, run the
detection pipeline, then recompute the classification. -/
def VirtualKeyboardTest.process_event (s : VirtualKeyboardTest) (e : KeyEvent)
    (now : Frac) : VirtualKeyboardTest :=
  if e.event_type ≠ KeyEventType.Press then s
  else (s.process_event_core e now).update_classification now

/-- A press of key 30 at time `t`. -/
def pressAt (t : Frac) : KeyEvent := ⟨30, KeyEventType.Press, t, 0⟩

/-- Feed a sequence of presses, using each press timestamp as the wall
clock. -/
def runPresses (s : VirtualKeyboardTest) (ts : List Frac) : VirtualKeyboardTest :=
  ts.foldl (fun s t => s.process_event (pressAt t) t) s

/-- The classification branch structure as the specification states it:
`Uncertain` below 10 keystrokes, otherwise the first matching branch over
the suspicious share `r = suspicious / total` and the count `a` of
anomalies within the last 5 seconds. -/
def classificationSpec (total suspicious recentAnoms : Nat) : InputClassification :=
  if total < 10 then InputClassification.Uncertain
  else if Frac.lt ⟨1, 1⟩ ((Frac.ofNat suspicious).divNat total) ∨ 3 ≤ recentAnoms then
    InputClassification.Virtual
  else if Frac.lt ⟨1, 4⟩ ((Frac.ofNat suspicious).divNat total) ∨ 1 ≤ recentAnoms then
    InputClassification.LikelyVirtual
  else if Frac.lt ⟨1, 19⟩ ((Frac.ofNat suspicious).divNat total) then
    InputClassification.Uncertain
  else if 50 < total then InputClassification.Physical
  else InputClassification.LikelyPhysical

theorem classifyOf_eq_spec (s : VirtualKeyboardTest) (now : Frac) :
    s.classifyOf now =
      classificationSpec s.total_keystrokes s.virtual_count
        (recentAnomalyCount s.anomalies now) := rfl

/-- C4: after every processed press event the classification equals the
spec's branch structure evaluated on the post-state totals, suspicious
count, and recent-anomaly count. -/
theorem classification_recomputed (s : VirtualKeyboardTest) (e : KeyEvent)
    (now : Frac) (h : e.event_type = KeyEventType.Press) :
    (s.process_event e now).session_classification =
      classificationSpec (s.process_event e now).total_keystrokes
        (s.process_event e now).virtual_count
        (recentAnomalyCount (s.process_event e now).anomalies now) := by
  unfold VirtualKeyboardTest.process_event
  rw [if_neg (by simp [h])]
  exact classifyOf_eq_spec (s.process_event_core e now) now

theorem classification_recomputed_witness :
    ((pressAt 0).event_type = KeyEventType.Press) ∧
    (VirtualKeyboardTest.new.process_event (pressAt 0) 0).session_classification =
      classificationSpec
        (VirtualKeyboardTest.new.process_event (pressAt 0) 0).total_keystrokes
        (VirtualKeyboardTest.new.process_event (pressAt 0) 0).virtual_count
        (recentAnomalyCount
          (VirtualKeyboardTest.new.process_event (pressAt 0) 0).anomalies 0) :=
  ⟨rfl, classification_recomputed VirtualKeyboardTest.new (pressAt 0) 0 rfl⟩

theorem evictBurst_within (ts : Frac) :
    ∀ l : List Frac, l.Pairwise Frac.le →
      ∀ t ∈ evictBurst ts l, (Frac.durationSince ts t).le 50 := by
  intro l
  induction l with
  | nil =>
      intro _ t ht
      simp [evictBurst] at ht
  | cons hd tl ih =>
      intro hp t ht
      rw [List.pairwise_cons] at hp
      unfold evictBurst at ht
      split_ifs at ht with hlt
      · exact ih hp.2 t ht
      · rcases List.mem_cons.mp ht with rfl | htl
        · exact Frac.le_of_not_lt hlt
        · exact Frac.le_trans' (Frac.durationSince_anti ts (hp.1 t htl))
            (Frac.le_of_not_lt hlt)

theorem detect_burst_window (s : VirtualKeyboardTest) (ts : Frac) :
    (s.detect_burst ts).1.burst_window = evictBurst ts (s.burst_window ++ [ts]) := by
  unfold VirtualKeyboardTest.detect_burst
  dsimp only
  split_ifs <;> rfl

/-- C6: under the reachable-state invariant that the burst window is a
nondecreasing list of past timestamps, after `detect_burst` every retained
entry is within the 50 ms window; the press is flagged suspicious exactly
when the window size reaches the threshold 5, in which case a High-severity
burst anomaly is submitted to the (dedup-guarded) recorder; and feeding 5
presses spanning 40 ms from the initial state records at least one
High-severity anomaly and marks the 5th press suspicious. -/
theorem burst_detection (s : VirtualKeyboardTest) (ts : Frac)
    (hsort : s.burst_window.Pairwise Frac.le)
    (hub : ∀ t ∈ s.burst_window, t.le ts) :
    (∀ t ∈ (s.detect_burst ts).1.burst_window, (Frac.durationSince ts t).le 50) ∧
    ((s.detect_burst ts).2 = true ↔
      BURST_COUNT_THRESHOLD ≤ (s.detect_burst ts).1.burst_window.length) ∧
    (BURST_COUNT_THRESHOLD ≤ (evictBurst ts (s.burst_window ++ [ts])).length →
      (s.detect_burst ts).1.anomalies =
        record_anomaly_list s.anomalies
          (AnomalyDescr.burst (evictBurst ts (s.burst_window ++ [ts])).length 50)
          ts AnomalySeverity.High) ∧
    ((∃ a ∈ (runPresses VirtualKeyboardTest.new [0, 10, 20, 30, 40]).anomalies,
        a.severity = AnomalySeverity.High) ∧
      ((runPresses VirtualKeyboardTest.new
          [0, 10, 20, 30, 40]).recent_keystrokes.getLast?.map
        KeystrokeRecord.is_virtual) = some true) := by
  have hp : (s.burst_window ++ [ts]).Pairwise Frac.le := by
    rw [List.pairwise_append]
    refine ⟨hsort, by simp, ?_⟩
    intro x hx y hy
    simp only [List.mem_singleton] at hy
    subst hy
    exact hub x hx
  refine ⟨?_, ?_, ?_, by decide, by decide⟩
  · rw [detect_burst_window]
    exact evictBurst_within ts _ hp
  · unfold VirtualKeyboardTest.detect_burst
    dsimp only
    split_ifs with h <;> simp [h, VirtualKeyboardTest.record_anomaly]
  · intro h
    unfold VirtualKeyboardTest.detect_burst
    dsimp only
    rw [if_pos h]
    rfl

theorem burst_detection_witness :
    (VirtualKeyboardTest.new.burst_window.Pairwise Frac.le) ∧
    (∀ t ∈ (VirtualKeyboardTest.new.detect_burst 0).1.burst_window,
      (Frac.durationSince 0 t).le 50) :=
  ⟨List.Pairwise.nil,
    (burst_detection VirtualKeyboardTest.new 0 List.Pairwise.nil (by decide)).1⟩

theorem record_anomaly_intervals (s : VirtualKeyboardTest) (d : AnomalyDescr)
    (ts : Frac) (sev : AnomalySeverity) :
    (s.record_anomaly d ts sev).intervals = s.intervals := rfl

theorem pushCapped_length {α : Type} (l : List α) (x : α) (cap : Nat)
    (h : l.length ≤ cap) : (pushCapped l x cap).length ≤ cap := by
  unfold pushCapped
  dsimp only
  split_ifs with hc
  · simp only [List.length_tail, List.length_append, List.length_singleton]
    omega
  · simp only [List.length_append, List.length_singleton] at hc ⊢
    omega

theorem analyze_timing_intervals (s : VirtualKeyboardTest) (interval ts : Frac) :
    (s.analyze_timing interval ts).1.intervals =
      pushCapped s.intervals interval ANALYSIS_WINDOW := by
  unfold VirtualKeyboardTest.analyze_timing
  dsimp only
  split_ifs <;> rfl

set_option maxRecDepth 100000 in
/-- C7 counterexample: feeding 10 presses at exactly 100 ms intervals from
the initial state records no anomaly at all: only 9 interval samples exist
after 10 presses, below the 10-sample gate of the perfect-timing check. -/
theorem perfect_timing_ten_presses :
    (runPresses VirtualKeyboardTest.new
      [0, 100, 200, 300, 400, 500, 600, 700, 800, 900]).anomalies = [] ∧
    (runPresses VirtualKeyboardTest.new
      [0, 100, 200, 300, 400, 500, 600, 700, 800, 900]).intervals.length = 9 := by
  constructor <;> decide

set_option maxRecDepth 100000 in
/-- C7 as amended: the interval window is capped at 20 samples; whenever 10
or more samples are present after the push and their population variance is
below 0.5 ms² the press is flagged suspicious, and (when no inhuman-speed
anomaly fires at the same instant and the history is empty) the
Medium-severity perfect-timing anomaly is recorded; the anomaly lands with
the 10th interval sample, i.e. on the 11th press of an exactly-100 ms
stream, not the 10th. -/
theorem perfect_timing_amended :
    (∀ (s : VirtualKeyboardTest) (interval ts : Frac),
      s.intervals.length ≤ ANALYSIS_WINDOW →
      (s.analyze_timing interval ts).1.intervals.length ≤ ANALYSIS_WINDOW) ∧
    (∀ (s : VirtualKeyboardTest) (interval ts : Frac),
      10 ≤ (pushCapped s.intervals interval ANALYSIS_WINDOW).length →
      Frac.lt (varianceOf (pushCapped s.intervals interval ANALYSIS_WINDOW))
        PERFECT_TIMING_THRESHOLD →
      (s.analyze_timing interval ts).2 = true) ∧
    (∀ (s : VirtualKeyboardTest) (interval ts : Frac),
      s.anomalies = [] →
      ¬ Frac.lt interval MIN_HUMAN_INTERVAL_MS →
      10 ≤ (pushCapped s.intervals interval ANALYSIS_WINDOW).length →
      Frac.lt (varianceOf (pushCapped s.intervals interval ANALYSIS_WINDOW))
        PERFECT_TIMING_THRESHOLD →
      (s.analyze_timing interval ts).1.anomalies =
        [⟨AnomalyDescr.perfectTiming
            (varianceOf (pushCapped s.intervals interval ANALYSIS_WINDOW)), ts,
          AnomalySeverity.Medium⟩]) ∧
    (∃ a ∈ (runPresses VirtualKeyboardTest.new
        [0, 100, 200, 300, 400, 500, 600, 700, 800, 900, 1000]).anomalies,
      a.severity = AnomalySeverity.Medium ∧ a.descr.isPerfectTiming = true) := by
  refine ⟨?_, ?_, ?_, by decide⟩
  · intro s interval ts h
    rw [analyze_timing_intervals]
    exact pushCapped_length _ _ _ h
  · intro s interval ts hlen hvar
    have h5 : 5 ≤ (pushCapped s.intervals interval ANALYSIS_WINDOW).length :=
      Nat.le_trans (by norm_num) hlen
    unfold VirtualKeyboardTest.analyze_timing
    by_cases hi : Frac.lt interval MIN_HUMAN_INTERVAL_MS
    · rw [if_pos hi]
      dsimp only
      simp only [record_anomaly_intervals]
      rw [if_pos h5, if_pos ⟨hvar, hlen⟩]
    · rw [if_neg hi]
      dsimp only
      rw [if_pos h5, if_pos ⟨hvar, hlen⟩]
  · intro s interval ts h0 h15 hlen hvar
    have h5 : 5 ≤ (pushCapped s.intervals interval ANALYSIS_WINDOW).length :=
      Nat.le_trans (by norm_num) hlen
    unfold VirtualKeyboardTest.analyze_timing
    rw [if_neg h15]
    dsimp only
    rw [if_pos h5, if_pos ⟨hvar, hlen⟩]
    simp [VirtualKeyboardTest.record_anomaly, record_anomaly_list, pushCapped, h0]

/-- A state whose interval window already holds nine exactly-100 ms
samples, used to instantiate the perfect-timing theorem. -/
def nineRegular : VirtualKeyboardTest :=
  { VirtualKeyboardTest.new with
    intervals := [100, 100, 100, 100, 100, 100, 100, 100, 100] }

theorem perfect_timing_amended_witness :
    (10 ≤ (pushCapped nineRegular.intervals 100 ANALYSIS_WINDOW).length) ∧
    Frac.lt (varianceOf (pushCapped nineRegular.intervals 100 ANALYSIS_WINDOW))
      PERFECT_TIMING_THRESHOLD ∧
    (nineRegular.analyze_timing 100 900).2 = true :=
  ⟨by decide, by decide,
    perfect_timing_amended.2.1 nineRegular 100 900 (by decide) (by decide)⟩

/-- C8: a new anomaly computed less than 100 ms after the most recently
recorded one is suppressed, so two anomalies computed within 100 ms of each
other collapse to one recorded entry. -/
theorem anomaly_dedup :
    (∀ (anoms : List AnomalyEvent) (last : AnomalyEvent) (d : AnomalyDescr)
        (ts : Frac) (sev : AnomalySeverity),
      anoms.getLast? = some last →
      Frac.lt (Frac.durationSince ts last.timestamp) 100 →
      record_anomaly_list anoms d ts sev = anoms) ∧
    (∀ (d1 : AnomalyDescr) (ts1 : Frac) (sev1 : AnomalySeverity)
        (d2 : AnomalyDescr) (ts2 : Frac) (sev2 : AnomalySeverity),
      Frac.lt (Frac.durationSince ts2 ts1) 100 →
      (record_anomaly_list (record_anomaly_list [] d1 ts1 sev1)
        d2 ts2 sev2).length = 1) := by
  constructor
  · intro anoms last d ts sev hlast hclose
    unfold record_anomaly_list
    rw [hlast]
    dsimp only
    rw [if_pos hclose]
  · intro d1 ts1 sev1 d2 ts2 sev2 hclose
    simp [record_anomaly_list, pushCapped, hclose]

theorem anomaly_dedup_witness :
    (Frac.lt (Frac.durationSince 50 0) 100) ∧
    (record_anomaly_list
        (record_anomaly_list [] (AnomalyDescr.burst 5 50) 0 AnomalySeverity.High)
        (AnomalyDescr.burst 5 50) 50 AnomalySeverity.High).length = 1 :=
  ⟨by decide,
    anomaly_dedup.2 (AnomalyDescr.burst 5 50) 0 AnomalySeverity.High
      (AnomalyDescr.burst 5 50) 50 AnomalySeverity.High (by decide)⟩

/-! ## Acquisition construction (src/keyboard/evdev_listener.rs)

`find_keyboard_devices` and `EvdevListener::new` interact with the
filesystem; the embedding abstracts the environment as the directory
listing of `/dev/input` (each entry with the outcome of the
`is_keyboard_device` sysfs heuristic) and a per-path open outcome, and
keeps the control flow of the source. -/

/-- One `/dev/input` directory entry: its file name and whether the
`is_keyboard_device` capability/name heuristic accepts it. -/
structure DirEntry where
  name : String
  is_keyboard : Bool
deriving DecidableEq

/-- `EvdevError` from `evdev_listener.rs` (the `Io` payload abstracts the
`io::Error` value as a numeric kind). -/
inductive EvdevError
  | NoDevices
  | PermissionDenied (msg : String)
  | Io (kind : Nat)
  | EnumerationFailed (msg : String)
deriving DecidableEq

/-- Executable character-list prefix test (the kernel cannot evaluate
`String.startsWith`, so the byte comparison is spelled out). -/
def listStarts : List Char → List Char → Bool
  | [], _ => true
  | _ :: _, [] => false
  | a :: pre, b :: l => a.toNat == b.toNat && listStarts pre l

/-- `name.starts_with(pat)`. -/
def strStarts (s pat : String) : Bool := listStarts pat.toList s.toList

/-- The discovery filter of `find_keyboard_devices`: an `event*` node that
the keyboard heuristic accepts. -/
def qualifies (e : DirEntry) : Bool := strStarts e.name "event" && e.is_keyboard

/-- `find_keyboard_devices` over the abstracted directory listing. -/
def find_keyboard_devices (inputDirExists : Bool) (entries : List DirEntry) :
    Except EvdevError (List String) :=
  if !inputDirExists then
    Except.error (EvdevError.EnumerationFailed "/dev/input does not exist")
  else
    let keyboards := (entries.filter qualifies).map DirEntry.name
    if keyboards.isEmpty then Except.error EvdevError.NoDevices
    else Except.ok keyboards

/-- Outcome of `File::open` on one device path. -/
inductive OpenOutcome
  | ok
  | errPermission
  | errOther (kind : Nat)
deriving DecidableEq

/-- The construction-relevant state of `EvdevListener`. -/
structure EvdevListener where
  devices : List String
  device_paths : List String
  pressed_keys : List Nat
deriving DecidableEq

/-- The device-opening loop of `EvdevListener::new`: successes are kept,
permission failures are skipped, any other error aborts with `Io`. -/
def openAll (openDevice : String → OpenOutcome) :
    List String → Except EvdevError (List String)
  | [] => Except.ok []
  | p :: rest =>
      match openDevice p with
      | OpenOutcome.ok => (openAll openDevice rest).map (fun ds => p :: ds)
      | OpenOutcome.errPermission => openAll openDevice rest
      | OpenOutcome.errOther k => Except.error (EvdevError.Io k)

/-- The remediation text of the all-devices-failed error (quotation marks
of the source message dropped). -/
def permissionGuidance : String :=
  "Cannot access any keyboard devices. Try running with sudo or add user to the input group."

/-- `EvdevListener::new` over the abstracted environment. -/
def EvdevListener.new (openDevice : String → OpenOutcome) (inputDirExists : Bool)
    (entries : List DirEntry) : Except EvdevError EvdevListener :=
  match find_keyboard_devices inputDirExists entries with
  | Except.error e => Except.error e
  | Except.ok device_paths =>
      match openAll openDevice device_paths with
      | Except.error e => Except.error e
      | Except.ok devices =>
          if devices.isEmpty then
            Except.error (EvdevError.PermissionDenied permissionGuidance)
          else
            Except.ok { devices := devices, device_paths := device_paths,
                        pressed_keys := [] }

theorem openAll_all_permission (openDevice : String → OpenOutcome) :
    ∀ paths : List String,
      (∀ p ∈ paths, openDevice p = OpenOutcome.errPermission) →
      openAll openDevice paths = Except.ok [] := by
  intro paths hall
  induction paths with
  | nil => rfl
  | cons p rest ih =>
      have hp := hall p (List.mem_cons_self p rest)
      simp only [openAll, hp]
      exact ih (fun q hq => hall q (List.mem_cons_of_mem p hq))

/-- C9: discovery fails with `NoDevices` exactly when no entry qualifies;
per-device permission failures are skipped (the opened set is exactly the
paths that open successfully, and the session proceeds); and when every
discovered device fails to open with a permission error, construction
fails with `PermissionDenied` carrying the remediation guidance. -/
theorem acquisition_failure_modes (openDevice : String → OpenOutcome)
    (entries : List DirEntry) :
    (find_keyboard_devices true entries = Except.error EvdevError.NoDevices ↔
      entries.filter qualifies = []) ∧
    (∀ paths : List String,
      (∀ p ∈ paths, openDevice p = OpenOutcome.ok ∨
        openDevice p = OpenOutcome.errPermission) →
      openAll openDevice paths =
        Except.ok (paths.filter (fun p => decide (openDevice p = OpenOutcome.ok)))) ∧
    (∀ paths : List String,
      find_keyboard_devices true entries = Except.ok paths →
      (∀ p ∈ paths, openDevice p = OpenOutcome.errPermission) →
      EvdevListener.new openDevice true entries =
        Except.error (EvdevError.PermissionDenied permissionGuidance)) := by
  refine ⟨?_, ?_, ?_⟩
  · unfold find_keyboard_devices
    simp only [Bool.not_true, Bool.false_eq_true, if_false]
    split_ifs with h
    · simp only [List.isEmpty_iff, List.map_eq_nil_iff] at h
      simp [h]
    · simp only [List.isEmpty_iff, List.map_eq_nil_iff] at h
      simp [h]
  · intro paths hall
    induction paths with
    | nil => rfl
    | cons p rest ih =>
        have hrest := ih (fun q hq => hall q (List.mem_cons_of_mem p hq))
        rcases hall p (List.mem_cons_self p rest) with hp | hp <;>
          simp [openAll, hp, hrest, Except.map]
  · intro paths hfind hall
    have hopen : openAll openDevice paths = Except.ok [] :=
      openAll_all_permission openDevice paths hall
    unfold EvdevListener.new
    rw [hfind]
    dsimp only
    rw [hopen]
    rfl

theorem acquisition_failure_modes_witness :
    (([⟨"mouse0", true⟩] : List DirEntry).filter qualifies = []) ∧
    find_keyboard_devices true [⟨"mouse0", true⟩] =
      Except.error EvdevError.NoDevices ∧
    EvdevListener.new (fun _ => OpenOutcome.errPermission) true
        [⟨"event0", true⟩] =
      Except.error (EvdevError.PermissionDenied permissionGuidance) :=
  ⟨by decide,
    (acquisition_failure_modes (fun _ => OpenOutcome.errPermission)
      [⟨"mouse0", true⟩]).1.mpr (by decide),
    (acquisition_failure_modes (fun _ => OpenOutcome.errPermission)
      [⟨"event0", true⟩]).2.2 ["event0"] (by rfl) (by intro p _; rfl)⟩
